import Mathlib

/-!
# Verification of the deals-table view-state core

Shallow embedding of the pure logic of `src/app/_dash/_components/deals-table.tsx`:
the record model, the filter → sort → totals derived-data pipeline, the
header-click sort toggle, row selection, bulk and row actions, and the
persisted-view-state loader.  JavaScript strings are modelled through their
character lists (case folding via `Char.toLower`, lexicographic comparison by
code point); JavaScript numbers holding integral monetary values are modelled
as `Int`, with exact division (`ℚ`) for the derived averages; JavaScript
objects used as string-keyed maps are modelled as association lists in
insertion order.
-/

namespace DealsTable

/-- Lower-cased character list of a string, modelling
`s.toLowerCase()` applied before the case-insensitive comparisons. -/
def lowerChars (s : String) : List Char :=
  s.data.map Char.toLower

/-- Substring test on character lists, modelling JavaScript
`haystack.includes(needle)`. -/
def charsIncludes (needle : List Char) : List Char → Bool
  | [] => needle.isEmpty
  | c :: rest => needle.isPrefixOf (c :: rest) || charsIncludes needle rest

/-- A deal record, from the `Deal` type in `deals-table.tsx`. -/
structure Deal where
  id : String
  deal : String
  activitiesTimeline : String
  stage : String
  dealValue : Int
  contacts : String
  owner : String
  accounts : String
  expectedClose : String
  forecastValue : Int
deriving DecidableEq, Repr

/-- Mock record 1 from `mockData`. -/
def mockDeal1 : Deal :=
  { id := "1", deal := "Enterprise Software License", activitiesTimeline := "",
    stage := "Proposal", dealValue := 125000,
    contacts := "John Smith, Mary Johnson", owner := "Alex Chen",
    accounts := "TechCorp Inc. - Enterprise", expectedClose := "2024-03-15",
    forecastValue := 112500 }

/-- Mock record 2 from `mockData`. -/
def mockDeal2 : Deal :=
  { id := "2", deal := "Cloud Migration Project", activitiesTimeline := "",
    stage := "Negotiation", dealValue := 85000,
    contacts := "Sarah Johnson, Mike Davis, Lisa Wong", owner := "Sam Wilson",
    accounts := "DataFlow Systems - Mid-Market", expectedClose := "2024-02-28",
    forecastValue := 76500 }

/-- Mock record 3 from `mockData`. -/
def mockDeal3 : Deal :=
  { id := "3", deal := "Marketing Automation Setup", activitiesTimeline := "",
    stage := "Proposal", dealValue := 45000,
    contacts := "Mike Davis, Jennifer Lee", owner := "Emma Brown",
    accounts := "GrowthCo - Small Business", expectedClose := "2024-02-15",
    forecastValue := 40500 }

/-- Mock record 4 from `mockData`. -/
def mockDeal4 : Deal :=
  { id := "4", deal := "Security Audit & Compliance", activitiesTimeline := "",
    stage := "Closed Won", dealValue := 95000,
    contacts := "Lisa Chen, Robert Kim, David Park", owner := "James Liu",
    accounts := "SecureBank - Financial Services", expectedClose := "2024-01-30",
    forecastValue := 95000 }

/-- Mock record 5 from `mockData`. -/
def mockDeal5 : Deal :=
  { id := "5", deal := "Custom Dashboard Development", activitiesTimeline := "",
    stage := "Discovery", dealValue := 65000,
    contacts := "Tom Wilson, Anna Martinez", owner := "Chris Taylor",
    accounts := "Analytics Pro - Technology", expectedClose := "2024-03-30",
    forecastValue := 58500 }

/-- The `mockData` seed array. -/
def mockData : List Deal :=
  [mockDeal1, mockDeal2, mockDeal3, mockDeal4, mockDeal5]

/-- Filter criteria, from the `FilterState` interface. -/
structure FilterState where
  search : String
  stage : List String
  owner : List String
  dealValueRange : Int × Int
deriving DecidableEq, Repr

/-- The searchable fields of a record, in the order listed in `filteredData`. -/
def searchableFields (deal : Deal) : List String :=
  [deal.deal, deal.owner, deal.accounts, deal.contacts]

/-- The predicate of the `filteredData` memo: one record's pass/fail,
with the same early-return structure as the source. -/
def dealPasses (filters : FilterState) (deal : Deal) : Bool :=
  if filters.search ≠ "" ∧
      ¬ ((searchableFields deal).any fun field =>
        charsIncludes (lowerChars filters.search) (lowerChars field)) then
    false
  else if filters.stage.length > 0 ∧ ¬ (filters.stage.contains deal.stage) then
    false
  else if filters.owner.length > 0 ∧ ¬ (filters.owner.contains deal.owner) then
    false
  else if deal.dealValue < filters.dealValueRange.1 ∨
      deal.dealValue > filters.dealValueRange.2 then
    false
  else
    true

/-- The `filteredData` memo: `tableData.filter(...)`. -/
def filteredData (tableData : List Deal) (filters : FilterState) : List Deal :=
  tableData.filter (dealPasses filters)

/-- The example filter from the specification:
no search, no stage or owner restriction, value range `[100000, 200000]`. -/
def exampleRangeFilter : FilterState :=
  { search := "", stage := [], owner := [], dealValueRange := (100000, 200000) }

theorem charsIncludes_iff (needle : List Char) (haystack : List Char) :
    charsIncludes needle haystack = true ↔ needle <:+: haystack := by
  induction haystack with
  | nil =>
    simp [charsIncludes, List.isEmpty_iff]
  | cons c rest ih =>
    simp only [charsIncludes, Bool.or_eq_true, ih, List.isPrefixOf_iff_prefix]
    exact ( List.infix_cons_iff).symm

theorem dealPasses_eq_true_iff (filters : FilterState) (d : Deal) :
    dealPasses filters d = true ↔
      ¬(filters.search ≠ "" ∧
        ¬ ((searchableFields d).any fun field =>
          charsIncludes (lowerChars filters.search) (lowerChars field))) ∧
      ¬(filters.stage.length > 0 ∧ ¬ (filters.stage.contains d.stage)) ∧
      ¬(filters.owner.length > 0 ∧ ¬ (filters.owner.contains d.owner)) ∧
      ¬(d.dealValue < filters.dealValueRange.1 ∨
        d.dealValue > filters.dealValueRange.2) := by
  unfold dealPasses
  split_ifs with h1 h2 h3 h4 <;> simp_all

theorem dealPasses_iff (filters : FilterState) (d : Deal) :
    dealPasses filters d = true ↔
      (filters.search = "" ∨ ∃ field ∈ searchableFields d,
        lowerChars filters.search <:+: lowerChars field) ∧
      (filters.stage = [] ∨ d.stage ∈ filters.stage) ∧
      (filters.owner = [] ∨ d.owner ∈ filters.owner) ∧
      filters.dealValueRange.1 ≤ d.dealValue ∧
      d.dealValue ≤ filters.dealValueRange.2 := by
  rw [dealPasses_eq_true_iff]
  refine and_congr ?_ (and_congr ?_ (and_congr ?_ ?_))
  · rw [not_and_or, not_ne_iff, not_not]
    exact or_congr .rfl (by simp [List.any_eq_true, charsIncludes_iff])
  · rw [not_and_or, not_lt, Nat.le_zero, List.length_eq_zero, not_not]
    exact or_congr .rfl (by simp [List.contains, List.elem_iff])
  · rw [not_and_or, not_lt, Nat.le_zero, List.length_eq_zero, not_not]
    exact or_congr .rfl (by simp [List.contains, List.elem_iff])
  · rw [not_or, not_lt, gt_iff_lt, not_lt]

/-- C1: a record appears in `filteredData` iff it is in the table and the
search string is empty or a case-insensitive substring of its title, owner,
account, or contacts string; the stage set is empty or contains its stage;
the owner set is empty or contains its owner; and its monetary value lies in
the inclusive range.  With records id "1" (125000) and id "2" (85000) and
range [100000, 200000], only id "1" passes. -/
theorem c1_filteredData_characterization :
    (∀ (tableData : List Deal) (filters : FilterState) (d : Deal),
      d ∈ filteredData tableData filters ↔
        d ∈ tableData ∧
        (filters.search = "" ∨ ∃ field ∈ searchableFields d,
          lowerChars filters.search <:+: lowerChars field) ∧
        (filters.stage = [] ∨ d.stage ∈ filters.stage) ∧
        (filters.owner = [] ∨ d.owner ∈ filters.owner) ∧
        filters.dealValueRange.1 ≤ d.dealValue ∧
        d.dealValue ≤ filters.dealValueRange.2) ∧
    (filteredData [mockDeal1, mockDeal2] exampleRangeFilter).map Deal.id
      = ["1"] := by
  constructor
  · intro tableData filters d
    rw [filteredData, List.mem_filter, dealPasses_iff]
  · decide

/-- Sort direction, from the `SortState` interface (`"asc" | "desc"`). -/
inductive Direction
  | asc
  | desc
deriving DecidableEq, Repr

/-- A sortable column: `keyof Omit<Deal, 'id'>`. -/
inductive ColKey
  | deal
  | activitiesTimeline
  | stage
  | dealValue
  | contacts
  | owner
  | accounts
  | expectedClose
  | forecastValue
deriving DecidableEq, Repr

/-- One sort key, from the `SortState` interface. -/
structure SortState where
  column : ColKey
  direction : Direction
deriving DecidableEq, Repr

/-- The `handleSort` header-click callback's update of the sort
specification. -/
def handleSort (column : ColKey) (currentSorts : List SortState) :
    List SortState :=
  match currentSorts.find? (fun s => s.column == column) with
  | some existingSort =>
    if existingSort.direction == Direction.asc then
      currentSorts.map fun s =>
        if s.column == column then { s with direction := Direction.desc } else s
    else
      currentSorts.filter fun s => s.column != column
  | none => currentSorts ++ [{ column := column, direction := Direction.asc }]

theorem find?_middle_sort {p : SortState → Bool} (pre post : List SortState)
    (x : SortState) (hpre : ∀ y ∈ pre, p y = false) (hx : p x = true) :
    (pre ++ x :: post).find? p = some x := by
  induction pre with
  | nil => simp [List.find?_cons, hx]
  | cons a l ih =>
    have ha : p a = false := hpre a (by simp)
    simp only [List.cons_append, List.find?_cons, ha]
    exact ih fun y hy => hpre y (by simp [hy])

theorem handleSort_map_frame (l : List SortState) (col : ColKey)
    (h : col ∉ l.map SortState.column) :
    (l.map fun s =>
      if s.column == col then { s with direction := Direction.desc } else s)
      = l := by
  induction l with
  | nil => rfl
  | cons a t ih =>
    simp only [List.map_cons, List.mem_cons, not_or] at h ⊢
    have hne : (a.column == col) = false :=
      beq_eq_false_iff_ne.mpr fun hc => h.1 hc.symm
    rw [ih h.2]
    congr 1
    simp [hne]

theorem handleSort_filter_frame (l : List SortState) (col : ColKey)
    (h : col ∉ l.map SortState.column) :
    (l.filter fun s => s.column != col) = l := by
  induction l with
  | nil => rfl
  | cons a t ih =>
    simp only [List.map_cons, List.mem_cons, not_or] at h
    have hne : (a.column != col) = true :=
      bne_iff_ne.mpr fun hc => h.1 hc.symm
    rw [List.filter_cons, if_pos hne, ih h.2]

/-- C2: clicking a column header cycles that column through
absent → ascending (appended as the new lowest-precedence key) →
descending (same position) → removed, leaving every other column's entry
unchanged in value and relative order. -/
theorem c2_handleSort_cycle (sorts pre post : List SortState) (col : ColKey) :
    (col ∉ sorts.map SortState.column →
      handleSort col sorts
        = sorts ++ [{ column := col, direction := Direction.asc }]) ∧
    (sorts = pre ++ { column := col, direction := Direction.asc } :: post →
      col ∉ pre.map SortState.column → col ∉ post.map SortState.column →
      handleSort col sorts
        = pre ++ { column := col, direction := Direction.desc } :: post) ∧
    (sorts = pre ++ { column := col, direction := Direction.desc } :: post →
      col ∉ pre.map SortState.column → col ∉ post.map SortState.column →
      handleSort col sorts = pre ++ post) := by
  refine ⟨?_, ?_, ?_⟩
  · intro h
    have hnone : sorts.find? (fun s => s.column == col) = none := by
      rw [List.find?_eq_none]
      intro x hx
      simp only [beq_iff_eq]
      intro hc
      exact h (hc ▸ List.mem_map_of_mem SortState.column hx)
    simp [handleSort, hnone]
  · rintro rfl hpre hpost
    have hfind :
        (pre ++ { column := col, direction := Direction.asc } :: post).find?
          (fun s => s.column == col)
          = some { column := col, direction := Direction.asc } := by
      apply find?_middle_sort
      · intro y hy
        exact beq_eq_false_iff_ne.mpr fun hc =>
          hpre (hc ▸ List.mem_map_of_mem SortState.column hy)
      · simp
    simp only [handleSort, hfind]
    rw [if_pos (by simp)]
    rw [List.map_append, handleSort_map_frame pre col hpre]
    simp only [List.map_cons]
    rw [handleSort_map_frame post col hpost]
    simp
  · rintro rfl hpre hpost
    have hfind :
        (pre ++ { column := col, direction := Direction.desc } :: post).find?
          (fun s => s.column == col)
          = some { column := col, direction := Direction.desc } := by
      apply find?_middle_sort
      · intro y hy
        exact beq_eq_false_iff_ne.mpr fun hc =>
          hpre (hc ▸ List.mem_map_of_mem SortState.column hy)
      · simp
    simp only [handleSort, hfind]
    rw [if_neg (by simp)]
    rw [List.filter_append, handleSort_filter_frame pre col hpre]
    simp only [List.filter_cons]
    rw [handleSort_filter_frame post col hpost]
    simp

/-- Witness for C2 at concrete inputs: clicking `dealValue` on an empty
specification adds it ascending, and clicking it again on that result flips
it to descending in place. -/
theorem c2_handleSort_cycle_witness :
    handleSort ColKey.dealValue []
      = [{ column := ColKey.dealValue, direction := Direction.asc }] ∧
    handleSort ColKey.dealValue
        [{ column := ColKey.dealValue, direction := Direction.asc }]
      = [{ column := ColKey.dealValue, direction := Direction.desc }] := by
  constructor
  · exact (c2_handleSort_cycle [] [] [] ColKey.dealValue).1 (by simp)
  · exact (c2_handleSort_cycle
      [{ column := ColKey.dealValue, direction := Direction.asc }] [] []
      ColKey.dealValue).2.1 rfl (by simp) (by simp)

/-- A column descriptor, from the `ColumnConfig` interface. -/
structure ColumnConfig where
  id : String
  label : String
  visible : Bool
  locked : Option Bool := none
  width : Option Nat := none
deriving DecidableEq, Repr

/-- The persisted view-state aggregate, from the `UIState` interface.
JavaScript objects used as string-keyed maps are association lists in
insertion order. -/
structure UIState where
  rowSelection : List (String × Bool)
  columnConfig : List ColumnConfig
  headerValues : List (String × String)
  selectedTemplates : List String
  expandedRows : List String
  filters : FilterState
  sorts : List SortState
  columnWidths : List (String × Nat)
deriving DecidableEq, Repr

/-- The reachable default initial view state returned by the `uiState`
initializer when nothing (or nothing parseable) is persisted. -/
def defaultUIState : UIState :=
  { rowSelection := [], columnConfig := [], headerValues := [],
    selectedTemplates := [], expandedRows := [],
    filters := { search := "", stage := [], owner := [],
                 dealValueRange := (0, 200000) },
    sorts := [], columnWidths := [] }

/-- The `onFiltersChange` handler: replaces `filters`, keeps the rest of the
previous state (`{ ...prev, filters: newFilters }`). -/
def setFilters (newFilters : FilterState) (prev : UIState) : UIState :=
  { prev with filters := newFilters }

/-- Truthiness of `currentSelection[row.id]` in JavaScript: an absent key
(`undefined`) and `false` are both falsy. -/
def isSelected (sel : List (String × Bool)) (id : String) : Bool :=
  (sel.lookup id).getD false

/-- The `handleSelectAll` callback: if every given row is already selected,
the selection map is replaced by `{}`; otherwise it is replaced by a map
sending exactly the given rows' ids to `true`. -/
def handleSelectAll (rows : List Deal)
    (currentSelection : List (String × Bool)) : List (String × Bool) :=
  let allSelected := rows.all fun row => isSelected currentSelection row.id
  if allSelected then [] else rows.map fun row => (row.id, true)

theorem lookup_map_true (rows : List Deal) (r : Deal) (h : r ∈ rows) :
    List.lookup r.id (rows.map fun row => (row.id, true)) = some true := by
  induction rows with
  | nil => cases h
  | cons a t ih =>
    rw [List.map_cons, List.lookup_cons]
    by_cases hc : (r.id == a.id) = true
    · simp [hc]
    · have hc' : (r.id == a.id) = false := by simpa using hc
      simp only [hc']
      rcases List.mem_cons.mp h with rfl | hmem
      · simp at hc'
      · exact ih hmem

/-- C3: if every currently visible row is already selected the toggle leaves
every visible row unselected, otherwise it leaves every visible row selected;
and changing filters does not touch the selection map. -/
theorem c3_selectAll_visible (rows : List Deal) (sel : List (String × Bool))
    (newFilters : FilterState) (st : UIState) :
    ((rows.all fun r => isSelected sel r.id) = true →
      ∀ r ∈ rows, isSelected (handleSelectAll rows sel) r.id = false) ∧
    ((rows.all fun r => isSelected sel r.id) = false →
      ∀ r ∈ rows, isSelected (handleSelectAll rows sel) r.id = true) ∧
    (setFilters newFilters st).rowSelection = st.rowSelection := by
  refine ⟨?_, ?_, rfl⟩
  · intro hall r _
    simp only [handleSelectAll, hall]
    simp [isSelected]
  · intro hall r hr
    simp only [handleSelectAll, hall]
    simp [isSelected, lookup_map_true rows r hr]

/-- Witness for C3 at a concrete input: with row id "1" visible and already
selected, the toggle leaves it unselected. -/
theorem c3_selectAll_visible_witness :
    isSelected (handleSelectAll [mockDeal1] [("1", true)]) mockDeal1.id
      = false :=
  (c3_selectAll_visible [mockDeal1] [("1", true)] exampleRangeFilter
    defaultUIState).1 (by decide) mockDeal1 (by simp)

theorem allSelected_map_true (rows : List Deal) :
    (rows.all fun r =>
      isSelected (rows.map fun row => (row.id, true)) r.id) = true := by
  rw [List.all_eq_true]
  intro r hr
  simp [isSelected, lookup_map_true rows r hr]

theorem all_isSelected_nil (rows : List Deal) (hne : rows ≠ []) :
    (rows.all fun r => isSelected [] r.id) = false := by
  cases rows with
  | nil => exact absurd rfl hne
  | cons a t => simp [isSelected]

/-- C4 fails as stated: with only the row with id "1" visible and a prior
selection map that also holds the non-visible id "2", two clicks of the
select-all toggle produce the map selecting only id "1", not the prior
map. -/
theorem c4_counterexample :
    handleSelectAll [mockDeal1]
        (handleSelectAll [mockDeal1] [("1", true), ("2", true)])
      ≠ [("1", true), ("2", true)] := by
  decide

/-- C4 amended: applying the select-all toggle twice with the visible set
unchanged returns the selection map to its prior state when that prior map
is empty (with at least one visible row) or is exactly the map sending the
visible rows to `true`; in general the toggle rebuilds the map from the
visible rows only, so other prior entries are not restored. -/
theorem c4_selectAll_double_toggle (rows : List Deal)
    (sel : List (String × Bool))
    (h : (sel = [] ∧ rows ≠ []) ∨ sel = rows.map fun r => (r.id, true)) :
    handleSelectAll rows (handleSelectAll rows sel) = sel := by
  rcases h with ⟨rfl, hne⟩ | rfl
  · have h1 : handleSelectAll rows [] = rows.map fun r => (r.id, true) := by
      simp [handleSelectAll, all_isSelected_nil rows hne]
    rw [h1]
    simp only [handleSelectAll, allSelected_map_true rows]
    simp
  · cases rows with
    | nil => simp [handleSelectAll, isSelected]
    | cons a t =>
      have h1 : handleSelectAll (a :: t)
          ((a :: t).map fun r => (r.id, true)) = [] := by
        simp only [handleSelectAll, allSelected_map_true (a :: t)]
        simp
      rw [h1]
      simp only [handleSelectAll, all_isSelected_nil (a :: t) (by simp)]
      simp

/-- Witness for the amended C4 at a concrete input: visible row id "1",
prior selection exactly that row. -/
theorem c4_selectAll_double_toggle_witness :
    handleSelectAll [mockDeal1] (handleSelectAll [mockDeal1] [("1", true)])
      = [("1", true)] :=
  c4_selectAll_double_toggle [mockDeal1] [("1", true)] (Or.inr (by decide))

/-- The delete case of `handleBulkAction`: `selectedRowIds` is
`Object.keys(rowSelection)` (the keys, in insertion order, regardless of
their boolean values); the table keeps the records whose id is not among
them, the selection map is replaced by `{}`, and the announcement reports
the pluralized key count. -/
def handleBulkDelete (tableData : List Deal) (prev : UIState) :
    List Deal × UIState × String :=
  let selectedRowIds := prev.rowSelection.map Prod.fst
  (tableData.filter fun deal => ¬ (selectedRowIds.contains deal.id),
   { prev with rowSelection := [] },
   "Deleted " ++ toString selectedRowIds.length ++ " deal" ++
     (if selectedRowIds.length ≠ 1 then "s" else ""))

/-- The code's own count of selected rows, as in the `totals` memo and the
selection bar: `Object.keys(rowSelection).filter(id => rowSelection[id])`. -/
def selectedCount (rowSelection : List (String × Bool)) : Nat :=
  ((rowSelection.map Prod.fst).filter fun id =>
    isSelected rowSelection id).length

/-- C5 fails on the code: with selection map {"1": true, "2": false} the
code's own selected count is 1 (only id "1" is selected; id "2" was toggled
back off), yet bulk delete removes the two records with ids "1" and "2"
(the table drops from 5 to 3 records) and announces "Deleted 2 deals",
because `handleBulkAction` takes `Object.keys` without filtering by value. -/
theorem c5_bulkDelete_keys_bug :
    selectedCount [("1", true), ("2", false)] = 1 ∧
    (handleBulkDelete mockData
        { defaultUIState with
            rowSelection := [("1", true), ("2", false)] }).1.length = 3 ∧
    mockDeal2 ∉ (handleBulkDelete mockData
        { defaultUIState with
            rowSelection := [("1", true), ("2", false)] }).1 ∧
    (handleBulkDelete mockData
        { defaultUIState with
            rowSelection := [("1", true), ("2", false)] }).2.2
      = "Deleted 2 deals" ∧
    (handleBulkDelete mockData
        { defaultUIState with
            rowSelection := [("1", true), ("2", false)] }).2.1.rowSelection
      = [] := by
  refine ⟨by decide, by decide, by decide, by decide, rfl⟩

/-- The duplicate case of `handleRowAction`: clone the source record, give
it id `` `${dealId}-copy-${Date.now()}` `` and the title suffix " (Copy)",
and append it.  The wall-clock value `Date.now()` is passed in as `now`. -/
def duplicateDeal (dealId : String) (now : Nat) (tableData : List Deal) :
    List Deal :=
  match tableData.find? (fun deal => deal.id == dealId) with
  | some originalDeal =>
    tableData ++ [{ originalDeal with
      id := dealId ++ "-copy-" ++ toString now,
      deal := originalDeal.deal ++ " (Copy)" }]
  | none => tableData

/-- C6 fails as stated: duplicating deal "1" twice at one timestamp value
(`Date.now()` has millisecond resolution, so two clicks can observe the same
value) produces two records with the identical id "1-copy-0"; the second
clone's id collides with an existing identifier. -/
theorem c6_counterexample :
    ¬ (((duplicateDeal "1" 0 (duplicateDeal "1" 0 mockData)).map
        Deal.id).Nodup) := by
  decide

/-- C6 amended: when the source id is present and the derived identifier
`sourceId ++ "-copy-" ++ timestamp` is not already in the store, duplication
appends exactly one clone (store grows by one) whose title is the source
title followed by " (Copy)" and whose id is fresh, preserving id uniqueness;
without that freshness premise (repeated duplication within the same
timestamp) the id collides. -/
theorem c6_duplicate_amended (tableData : List Deal) (dealId : String)
    (now : Nat) (orig : Deal)
    (hfind : tableData.find? (fun deal => deal.id == dealId) = some orig)
    (hfresh : (dealId ++ "-copy-" ++ toString now) ∉ tableData.map Deal.id) :
    (duplicateDeal dealId now tableData).length = tableData.length + 1 ∧
    duplicateDeal dealId now tableData
      = tableData ++ [{ orig with
          id := dealId ++ "-copy-" ++ toString now,
          deal := orig.deal ++ " (Copy)" }] ∧
    ((tableData.map Deal.id).Nodup →
      ((duplicateDeal dealId now tableData).map Deal.id).Nodup) := by
  have heq : duplicateDeal dealId now tableData
      = tableData ++ [{ orig with
          id := dealId ++ "-copy-" ++ toString now,
          deal := orig.deal ++ " (Copy)" }] := by
    unfold duplicateDeal
    rw [hfind]
  refine ⟨by rw [heq]; simp, heq, ?_⟩
  · intro hnd
    rw [heq, List.map_append]
    rw [List.nodup_append]
    refine ⟨hnd, by simp, ?_⟩
    intro a ha hb
    simp only [List.map_cons, List.map_nil, List.mem_singleton] at hb
    subst hb
    exact hfresh ha

/-- Witness for the amended C6: duplicating deal "1" from the seed data at
timestamp 0 grows the store by one. -/
theorem c6_duplicate_amended_witness :
    (duplicateDeal "1" 0 mockData).length = mockData.length + 1 :=
  (c6_duplicate_amended mockData "1" 0 mockDeal1 (by decide) (by decide)).1

/-- The delete case of `handleRowAction`: drop the matching record from the
table, leave the view state untouched, announce "Deal deleted". -/
def handleRowDelete (dealId : String) (tableData : List Deal)
    (uiState : UIState) : List Deal × UIState × String :=
  (tableData.filter fun deal => deal.id != dealId, uiState, "Deal deleted")

/-- C10: the row-level delete removes exactly the record with the given id
from the record store and leaves the whole view state unchanged: the deleted
id's selection entry and its expanded-row membership persist (only bulk
delete clears selection entries). -/
theorem c10_rowDelete_frame (dealId : String) (tableData : List Deal)
    (st : UIState) :
    (handleRowDelete dealId tableData st).2.1 = st ∧
    (∀ d ∈ tableData, d.id ≠ dealId →
      d ∈ (handleRowDelete dealId tableData st).1) ∧
    (∀ d ∈ (handleRowDelete dealId tableData st).1,
      d ∈ tableData ∧ d.id ≠ dealId) ∧
    List.lookup dealId (handleRowDelete dealId tableData st).2.1.rowSelection
      = List.lookup dealId st.rowSelection ∧
    (handleRowDelete dealId tableData st).2.1.expandedRows.contains dealId
      = st.expandedRows.contains dealId ∧
    (handleRowDelete dealId tableData st).2.2 = "Deal deleted" := by
  refine ⟨rfl, ?_, ?_, rfl, rfl, rfl⟩
  · intro d hd hne
    simp only [handleRowDelete, List.mem_filter]
    exact ⟨hd, by simpa using hne⟩
  · intro d hd
    simp only [handleRowDelete, List.mem_filter] at hd
    exact ⟨hd.1, by simpa using hd.2⟩

/-- Witness for C10 at a concrete input: deleting id "1" keeps record id "2"
and keeps the view state (with id "1" selected and expanded) unchanged. -/
theorem c10_rowDelete_frame_witness :
    mockDeal2 ∈ (handleRowDelete "1" mockData
      { defaultUIState with
          rowSelection := [("1", true)], expandedRows := ["1"] }).1 :=
  (c10_rowDelete_frame "1" mockData
    { defaultUIState with
        rowSelection := [("1", true)], expandedRows := ["1"] }).2.1
    mockDeal2 (by simp [mockData]) (by decide)

/-- The three-way comparison pattern of the `sortedData` comparator body:
`aVal < bVal ⇒ lt`, `aVal > bVal ⇒ gt`, otherwise a tie. -/
def cmpLin {α : Type} [LinearOrder α] (a b : α) : Ordering :=
  if a < b then .lt else if b < a then .gt else .eq

theorem cmpLin_eq_lt {α : Type} [LinearOrder α] {a b : α} :
    cmpLin a b = .lt ↔ a < b := by
  unfold cmpLin
  split_ifs with h1 h2 <;> simp_all

theorem cmpLin_eq_gt {α : Type} [LinearOrder α] {a b : α} :
    cmpLin a b = .gt ↔ b < a := by
  unfold cmpLin
  split_ifs with h1 h2 <;> simp_all
  exact le_of_lt h1

theorem cmpLin_eq_eq {α : Type} [LinearOrder α] {a b : α} :
    cmpLin a b = .eq ↔ a = b := by
  unfold cmpLin
  split_ifs with h1 h2
  · simp [ne_of_lt h1]
  · simp [ne_of_gt h2]
  · simp [le_antisymm (not_lt.mp h2) (not_lt.mp h1)]

/-- The laws a three-way comparator needs for the sortedness and stability
arguments: antisymmetry via `swap`, and transitivity of the strict and tie
relations. -/
structure LawfulCmp {α : Type} (c : α → α → Ordering) : Prop where
  symm : ∀ a b, c b a = (c a b).swap
  lt_trans : ∀ {a b d}, c a b = .lt → c b d = .lt → c a d = .lt
  lt_of_lt_of_eq : ∀ {a b d}, c a b = .lt → c b d = .eq → c a d = .lt
  lt_of_eq_of_lt : ∀ {a b d}, c a b = .eq → c b d = .lt → c a d = .lt
  eq_trans : ∀ {a b d}, c a b = .eq → c b d = .eq → c a d = .eq

theorem lawful_cmpLin {α : Type} [LinearOrder α] :
    LawfulCmp (cmpLin (α := α)) := by
  refine ⟨?_, ?_, ?_, ?_, ?_⟩
  · intro a b
    rcases lt_trichotomy a b with h | h | h
    · rw [cmpLin_eq_lt.mpr h, cmpLin_eq_gt.mpr h]
      rfl
    · subst h
      rw [cmpLin_eq_eq.mpr rfl]
      rfl
    · rw [cmpLin_eq_gt.mpr h, cmpLin_eq_lt.mpr h]
      rfl
  · intro a b d h1 h2
    exact cmpLin_eq_lt.mpr (lt_trans (cmpLin_eq_lt.mp h1) (cmpLin_eq_lt.mp h2))
  · intro a b d h1 h2
    exact cmpLin_eq_lt.mpr (cmpLin_eq_eq.mp h2 ▸ cmpLin_eq_lt.mp h1)
  · intro a b d h1 h2
    exact cmpLin_eq_lt.mpr (cmpLin_eq_eq.mp h1 ▸ cmpLin_eq_lt.mp h2)
  · intro a b d h1 h2
    exact cmpLin_eq_eq.mpr ((cmpLin_eq_eq.mp h1).trans (cmpLin_eq_eq.mp h2))

theorem LawfulCmp.eq_symm {α : Type} {c : α → α → Ordering}
    (hc : LawfulCmp c) {a b : α} (h : c a b = .eq) : c b a = .eq := by
  rw [hc.symm, h]
  rfl

theorem swap_eq_lt_iff {o : Ordering} : o.swap = .lt ↔ o = .gt := by
  rcases o <;> simp [Ordering.swap]

theorem swap_eq_eq_iff {o : Ordering} : o.swap = .eq ↔ o = .eq := by
  rcases o <;> simp [Ordering.swap]

theorem LawfulCmp.gt_iff {α : Type} {c : α → α → Ordering}
    (hc : LawfulCmp c) {a b : α} : c a b = .gt ↔ c b a = .lt := by
  rw [hc.symm b a]
  rcases h : c b a <;> simp [h, Ordering.swap]

theorem LawfulCmp.congr {α : Type} {c₁ c₂ : α → α → Ordering}
    (h : ∀ a b, c₁ a b = c₂ a b) (hc : LawfulCmp c₁) : LawfulCmp c₂ := by
  have he : c₁ = c₂ := funext fun a => funext fun b => h a b
  exact he ▸ hc

theorem LawfulCmp.comap {α β : Type} {c : β → β → Ordering}
    (hc : LawfulCmp c) (f : α → β) :
    LawfulCmp (fun a b => c (f a) (f b)) := by
  refine ⟨?_, ?_, ?_, ?_, ?_⟩
  · intro a b
    exact hc.symm (f a) (f b)
  · intro a b d
    exact hc.lt_trans
  · intro a b d
    exact hc.lt_of_lt_of_eq
  · intro a b d
    exact hc.lt_of_eq_of_lt
  · intro a b d
    exact hc.eq_trans

theorem LawfulCmp.swap {α : Type} {c : α → α → Ordering}
    (hc : LawfulCmp c) : LawfulCmp (fun a b => (c a b).swap) := by
  refine ⟨?_, ?_, ?_, ?_, ?_⟩
  · intro a b
    rw [hc.symm]
  · intro a b d h1 h2
    simp only [swap_eq_lt_iff] at h1 h2 ⊢
    exact hc.gt_iff.mpr (hc.lt_trans (hc.gt_iff.mp h2) (hc.gt_iff.mp h1))
  · intro a b d h1 h2
    simp only [swap_eq_lt_iff, swap_eq_eq_iff] at h1 h2 ⊢
    exact hc.gt_iff.mpr (hc.lt_of_eq_of_lt (hc.eq_symm h2) (hc.gt_iff.mp h1))
  · intro a b d h1 h2
    simp only [swap_eq_lt_iff, swap_eq_eq_iff] at h1 h2 ⊢
    exact hc.gt_iff.mpr (hc.lt_of_lt_of_eq (hc.gt_iff.mp h2) (hc.eq_symm h1))
  · intro a b d h1 h2
    simp only [swap_eq_eq_iff] at h1 h2 ⊢
    exact hc.eq_trans h1 h2

theorem LawfulCmp.constEq {α : Type} :
    LawfulCmp (fun (_ _ : α) => Ordering.eq) := by
  refine ⟨fun a b => rfl, ?_, ?_, ?_, ?_⟩ <;> intro a b d h1 h2 <;> simp_all

theorem LawfulCmp.lexStep {α : Type} {c₁ c₂ : α → α → Ordering}
    (h₁ : LawfulCmp c₁) (h₂ : LawfulCmp c₂) :
    LawfulCmp (fun a b => match c₁ a b with | .eq => c₂ a b | o => o) := by
  have hlt : ∀ a b, (match c₁ a b with | .eq => c₂ a b | o => o) = .lt ↔
      c₁ a b = .lt ∨ (c₁ a b = .eq ∧ c₂ a b = .lt) := by
    intro a b
    rcases h : c₁ a b <;> simp [h]
  have heq : ∀ a b, (match c₁ a b with | .eq => c₂ a b | o => o) = .eq ↔
      c₁ a b = .eq ∧ c₂ a b = .eq := by
    intro a b
    rcases h : c₁ a b <;> simp [h]
  refine ⟨?_, ?_, ?_, ?_, ?_⟩
  · intro a b
    rcases h : c₁ a b with _ | _ | _
    · have hba : c₁ b a = .gt := by
        rw [h₁.symm, h]
        rfl
      simp only [h, hba]
      rfl
    · have hba : c₁ b a = .eq := h₁.eq_symm h
      simp [h, hba, h₂.symm a b]
    · have hba : c₁ b a = .lt := h₁.gt_iff.mp h
      simp only [h, hba]
      rfl
  · intro a b d m1 m2
    rw [hlt] at m1 m2 ⊢
    rcases m1 with m1 | ⟨m1e, m1l⟩ <;> rcases m2 with m2 | ⟨m2e, m2l⟩
    · exact Or.inl (h₁.lt_trans m1 m2)
    · exact Or.inl (h₁.lt_of_lt_of_eq m1 m2e)
    · exact Or.inl (h₁.lt_of_eq_of_lt m1e m2)
    · exact Or.inr ⟨h₁.eq_trans m1e m2e, h₂.lt_trans m1l m2l⟩
  · intro a b d m1 m2
    rw [hlt] at m1 ⊢
    rw [heq] at m2
    rcases m1 with m1 | ⟨m1e, m1l⟩
    · exact Or.inl (h₁.lt_of_lt_of_eq m1 m2.1)
    · exact Or.inr ⟨h₁.eq_trans m1e m2.1, h₂.lt_of_lt_of_eq m1l m2.2⟩
  · intro a b d m1 m2
    rw [hlt] at m2 ⊢
    rw [heq] at m1
    rcases m2 with m2 | ⟨m2e, m2l⟩
    · exact Or.inl (h₁.lt_of_eq_of_lt m1.1 m2)
    · exact Or.inr ⟨h₁.eq_trans m1.1 m2e, h₂.lt_of_eq_of_lt m1.2 m2l⟩
  · intro a b d m1 m2
    rw [heq] at m1 m2 ⊢
    exact ⟨h₁.eq_trans m1.1 m2.1, h₂.eq_trans m1.2 m2.2⟩

/-- Lexicographic comparison of two character lists by a character
comparator: JavaScript `<` / `>` on strings compare code units left to
right, a strict prefix being smaller. -/
def cmpList {α : Type} (c : α → α → Ordering) : List α → List α → Ordering
  | [], [] => .eq
  | [], _ :: _ => .lt
  | _ :: _, [] => .gt
  | a :: as, b :: bs =>
    match c a b with
    | .eq => cmpList c as bs
    | o => o

theorem cmpList_cons_lt {α : Type} {c : α → α → Ordering} {a b : α}
    {as bs : List α} :
    cmpList c (a :: as) (b :: bs) = .lt ↔
      c a b = .lt ∨ (c a b = .eq ∧ cmpList c as bs = .lt) := by
  simp only [cmpList]
  rcases h : c a b <;> simp [h]

theorem cmpList_cons_eq {α : Type} {c : α → α → Ordering} {a b : α}
    {as bs : List α} :
    cmpList c (a :: as) (b :: bs) = .eq ↔
      c a b = .eq ∧ cmpList c as bs = .eq := by
  simp only [cmpList]
  rcases h : c a b <;> simp [h]

theorem cmpList_symm {α : Type} {c : α → α → Ordering} (hc : LawfulCmp c) :
    ∀ (l₁ l₂ : List α), cmpList c l₂ l₁ = (cmpList c l₁ l₂).swap
  | [], [] => rfl
  | [], _ :: _ => rfl
  | _ :: _, [] => rfl
  | a :: as, b :: bs => by
    simp only [cmpList]
    rcases h : c a b with _ | _ | _
    · have hba : c b a = .gt := by
        rw [hc.symm, h]
        rfl
      simp [h, hba, Ordering.swap]
    · have hba : c b a = .eq := hc.eq_symm h
      simp [h, hba, cmpList_symm hc as bs]
    · have hba : c b a = .lt := hc.gt_iff.mp h
      simp [h, hba, Ordering.swap]

theorem cmpList_lt_trans {α : Type} {c : α → α → Ordering}
    (hc : LawfulCmp c) :
    ∀ (l₁ l₂ l₃ : List α), cmpList c l₁ l₂ = .lt → cmpList c l₂ l₃ = .lt →
      cmpList c l₁ l₃ = .lt
  | [], [], _, h₁, _ => by simp [cmpList] at h₁
  | [], _ :: _, [], _, h₂ => by simp [cmpList] at h₂
  | [], _ :: _, _ :: _, _, _ => by simp [cmpList]
  | _ :: _, [], _, h₁, _ => by simp [cmpList] at h₁
  | _ :: _, _ :: _, [], _, h₂ => by simp [cmpList] at h₂
  | a :: as, b :: bs, d :: ds, h₁, h₂ => by
    rw [cmpList_cons_lt] at h₁ h₂ ⊢
    rcases h₁ with h₁ | ⟨h₁e, h₁l⟩ <;> rcases h₂ with h₂ | ⟨h₂e, h₂l⟩
    · exact Or.inl (hc.lt_trans h₁ h₂)
    · exact Or.inl (hc.lt_of_lt_of_eq h₁ h₂e)
    · exact Or.inl (hc.lt_of_eq_of_lt h₁e h₂)
    · exact Or.inr ⟨hc.eq_trans h₁e h₂e, cmpList_lt_trans hc as bs ds h₁l h₂l⟩

theorem cmpList_lt_of_lt_of_eq {α : Type} {c : α → α → Ordering}
    (hc : LawfulCmp c) :
    ∀ (l₁ l₂ l₃ : List α), cmpList c l₁ l₂ = .lt → cmpList c l₂ l₃ = .eq →
      cmpList c l₁ l₃ = .lt
  | [], [], _, h₁, _ => by simp [cmpList] at h₁
  | [], _ :: _, [], _, h₂ => by simp [cmpList] at h₂
  | [], _ :: _, _ :: _, _, _ => by simp [cmpList]
  | _ :: _, [], _, h₁, _ => by simp [cmpList] at h₁
  | _ :: _, _ :: _, [], _, h₂ => by simp [cmpList] at h₂
  | a :: as, b :: bs, d :: ds, h₁, h₂ => by
    rw [cmpList_cons_lt] at h₁ ⊢
    rw [cmpList_cons_eq] at h₂
    rcases h₁ with h₁ | ⟨h₁e, h₁l⟩
    · exact Or.inl (hc.lt_of_lt_of_eq h₁ h₂.1)
    · exact Or.inr ⟨hc.eq_trans h₁e h₂.1,
        cmpList_lt_of_lt_of_eq hc as bs ds h₁l h₂.2⟩

theorem cmpList_lt_of_eq_of_lt {α : Type} {c : α → α → Ordering}
    (hc : LawfulCmp c) :
    ∀ (l₁ l₂ l₃ : List α), cmpList c l₁ l₂ = .eq → cmpList c l₂ l₃ = .lt →
      cmpList c l₁ l₃ = .lt
  | [], [], [], _, h₂ => by simp [cmpList] at h₂
  | [], [], _ :: _, _, _ => by simp [cmpList]
  | [], _ :: _, _, h₁, _ => by simp [cmpList] at h₁
  | _ :: _, [], _, h₁, _ => by simp [cmpList] at h₁
  | _ :: _, _ :: _, [], _, h₂ => by simp [cmpList] at h₂
  | a :: as, b :: bs, d :: ds, h₁, h₂ => by
    rw [cmpList_cons_eq] at h₁
    rw [cmpList_cons_lt] at h₂ ⊢
    rcases h₂ with h₂ | ⟨h₂e, h₂l⟩
    · exact Or.inl (hc.lt_of_eq_of_lt h₁.1 h₂)
    · exact Or.inr ⟨hc.eq_trans h₁.1 h₂e,
        cmpList_lt_of_eq_of_lt hc as bs ds h₁.2 h₂l⟩

theorem cmpList_eq_trans {α : Type} {c : α → α → Ordering}
    (hc : LawfulCmp c) :
    ∀ (l₁ l₂ l₃ : List α), cmpList c l₁ l₂ = .eq → cmpList c l₂ l₃ = .eq →
      cmpList c l₁ l₃ = .eq
  | [], [], [], _, _ => by simp [cmpList]
  | [], [], _ :: _, _, h₂ => by simp [cmpList] at h₂
  | [], _ :: _, _, h₁, _ => by simp [cmpList] at h₁
  | _ :: _, [], _, h₁, _ => by simp [cmpList] at h₁
  | _ :: _, _ :: _, [], _, h₂ => by simp [cmpList] at h₂
  | a :: as, b :: bs, d :: ds, h₁, h₂ => by
    rw [cmpList_cons_eq] at h₁ h₂ ⊢
    exact ⟨hc.eq_trans h₁.1 h₂.1, cmpList_eq_trans hc as bs ds h₁.2 h₂.2⟩

theorem lawful_cmpList {α : Type} {c : α → α → Ordering}
    (hc : LawfulCmp c) : LawfulCmp (cmpList c) :=
  ⟨cmpList_symm hc,
   fun {a b d} => cmpList_lt_trans hc a b d,
   fun {a b d} => cmpList_lt_of_lt_of_eq hc a b d,
   fun {a b d} => cmpList_lt_of_eq_of_lt hc a b d,
   fun {a b d} => cmpList_eq_trans hc a b d⟩

/-- Case-insensitive string comparison in the comparator: both values are
lower-cased first (`typeof aVal === "string"` branch) and then compared as
JavaScript `<` / `>` compare strings. -/
def cmpStr (a b : String) : Ordering :=
  cmpList cmpLin (lowerChars a) (lowerChars b)

/-- One column's three-way comparison of two records: the typed reading of
`a[sort.column]` versus `b[sort.column]` (string fields lower-cased, numeric
fields compared numerically). -/
def cmpField : ColKey → Deal → Deal → Ordering
  | .deal, a, b => cmpStr a.deal b.deal
  | .activitiesTimeline, a, b => cmpStr a.activitiesTimeline b.activitiesTimeline
  | .stage, a, b => cmpStr a.stage b.stage
  | .dealValue, a, b => cmpLin a.dealValue b.dealValue
  | .contacts, a, b => cmpStr a.contacts b.contacts
  | .owner, a, b => cmpStr a.owner b.owner
  | .accounts, a, b => cmpStr a.accounts b.accounts
  | .expectedClose, a, b => cmpStr a.expectedClose b.expectedClose
  | .forecastValue, a, b => cmpLin a.forecastValue b.forecastValue

/-- One sort key's contribution to the comparator: a descending key flips
the result (`asc ? -1 : 1` versus `asc ? 1 : -1`). -/
def cmpKey (sort : SortState) (a b : Deal) : Ordering :=
  match sort.direction with
  | .asc => cmpField sort.column a b
  | .desc => (cmpField sort.column a b).swap

/-- The multi-key comparator loop of `sortedData`: the first key that does
not tie decides; if every key ties the comparator returns 0. -/
def cmpDeals : List SortState → Deal → Deal → Ordering
  | [], _, _ => .eq
  | sort :: rest, a, b =>
    match cmpKey sort a b with
    | .eq => cmpDeals rest a b
    | o => o

theorem lawful_cmpStr : LawfulCmp cmpStr :=
  (lawful_cmpList lawful_cmpLin).comap lowerChars

theorem lawful_cmpField (col : ColKey) : LawfulCmp (cmpField col) := by
  cases col
  · exact lawful_cmpStr.comap Deal.deal
  · exact lawful_cmpStr.comap Deal.activitiesTimeline
  · exact lawful_cmpStr.comap Deal.stage
  · exact lawful_cmpLin.comap Deal.dealValue
  · exact lawful_cmpStr.comap Deal.contacts
  · exact lawful_cmpStr.comap Deal.owner
  · exact lawful_cmpStr.comap Deal.accounts
  · exact lawful_cmpStr.comap Deal.expectedClose
  · exact lawful_cmpLin.comap Deal.forecastValue

theorem lawful_cmpKey (sort : SortState) : LawfulCmp (cmpKey sort) := by
  rcases sort with ⟨col, dir⟩
  cases dir
  · exact lawful_cmpField col
  · exact (lawful_cmpField col).swap

theorem lawful_cmpDeals : ∀ (sorts : List SortState),
    LawfulCmp (cmpDeals sorts)
  | [] => LawfulCmp.constEq
  | sort :: rest => (lawful_cmpKey sort).lexStep (lawful_cmpDeals rest)

theorem LawfulCmp.le_trans' {α : Type} {c : α → α → Ordering}
    (hc : LawfulCmp c) {a b d : α} (h1 : c a b ≠ .gt) (h2 : c b d ≠ .gt) :
    c a d ≠ .gt := by
  rcases e1 : c a b with _ | _ | _ <;> rcases e2 : c b d with _ | _ | _ <;>
    first
      | exact absurd e1 h1
      | exact absurd e2 h2
      | (rw [hc.lt_trans e1 e2]; decide)
      | (rw [hc.lt_of_lt_of_eq e1 e2]; decide)
      | (rw [hc.lt_of_eq_of_lt e1 e2]; decide)
      | (rw [hc.eq_trans e1 e2]; decide)

theorem LawfulCmp.le_total' {α : Type} {c : α → α → Ordering}
    (hc : LawfulCmp c) (a b : α) : c a b ≠ .gt ∨ c b a ≠ .gt := by
  rcases e : c a b with _ | _ | _
  · left
    simp [e]
  · left
    simp [e]
  · right
    rw [hc.gt_iff.mp e]
    decide

theorem bne_gt_iff {o : Ordering} :
    (o != Ordering.gt) = true ↔ o ≠ Ordering.gt := by
  rcases o <;> decide

/-- The `sortedData` memo: an empty sort specification returns the filtered
list itself; otherwise a copy of the filtered list is sorted by the
multi-key comparator.  ECMAScript `Array.prototype.sort` is a stable sort,
modelled by `List.mergeSort`. -/
def sortedData (sorts : List SortState) (filtered : List Deal) : List Deal :=
  if sorts.isEmpty then filtered
  else filtered.mergeSort fun a b => cmpDeals sorts a b != Ordering.gt

theorem sortedData_trans (sorts : List SortState) :
    ∀ (a b d : Deal), (cmpDeals sorts a b != Ordering.gt) →
      (cmpDeals sorts b d != Ordering.gt) →
      (cmpDeals sorts a d != Ordering.gt) := by
  intro a b d h1 h2
  rw [bne_gt_iff] at h1 h2 ⊢
  exact (lawful_cmpDeals sorts).le_trans' h1 h2

theorem sortedData_total (sorts : List SortState) :
    ∀ (a b : Deal), (cmpDeals sorts a b != Ordering.gt) ||
      (cmpDeals sorts b a != Ordering.gt) := by
  intro a b
  rw [Bool.or_eq_true, bne_gt_iff, bne_gt_iff]
  exact (lawful_cmpDeals sorts).le_total' a b

/-- C7: the sort pipeline is a stable multi-key ordering — the output is a
permutation of the filtered input, pairwise ordered by the (case-insensitive
for strings) multi-key comparator, and records that tie on every key keep
their relative input order — and an empty sort specification (including
after clearing any previous sort) returns exactly the filtered records,
which are in the record store's original order. -/
theorem c7_sortedData_stable_multikey :
    (∀ filtered : List Deal, sortedData [] filtered = filtered) ∧
    (∀ (tableData : List Deal) (filters : FilterState),
      List.Sublist (sortedData [] (filteredData tableData filters))
        tableData) ∧
    (∀ (sorts : List SortState) (filtered : List Deal),
      (sortedData sorts filtered).Perm filtered) ∧
    (∀ (sorts : List SortState) (filtered : List Deal),
      (sortedData sorts filtered).Pairwise
        fun a b => cmpDeals sorts a b ≠ Ordering.gt) ∧
    (∀ (sorts : List SortState) (filtered : List Deal) (a b : Deal),
      cmpDeals sorts a b = Ordering.eq → List.Sublist [a, b] filtered →
      List.Sublist [a, b] (sortedData sorts filtered)) := by
  have hnil : ∀ filtered : List Deal, sortedData [] filtered = filtered := by
    intro filtered
    simp [sortedData]
  refine ⟨hnil, ?_, ?_, ?_, ?_⟩
  · intro tableData filters
    rw [hnil]
    exact List.filter_sublist tableData
  · intro sorts filtered
    cases sorts with
    | nil => rw [hnil]
    | cons s rest =>
      exact List.mergeSort_perm filtered _
  · intro sorts filtered
    cases sorts with
    | nil =>
      rw [hnil]
      exact List.pairwise_of_forall fun a b => by simp [cmpDeals]
    | cons s rest =>
      have hs := @List.sorted_mergeSort Deal
        (fun a b => cmpDeals (s :: rest) a b != Ordering.gt)
        (fun a b d => sortedData_trans (s :: rest) a b d)
        (fun a b => sortedData_total (s :: rest) a b) filtered
      exact hs.imp fun {a b} h => bne_gt_iff.mp h
  · intro sorts filtered a b heq hsub
    cases sorts with
    | nil =>
      rw [hnil]
      exact hsub
    | cons s rest =>
      exact List.pair_sublist_mergeSort
        (fun a b d => sortedData_trans (s :: rest) a b d)
        (fun a b => sortedData_total (s :: rest) a b)
        (by rw [bne_gt_iff, heq]; decide) hsub

/-- Witness for C7 at a concrete input: records "1" and "3" both have stage
"Proposal", so sorting the seed data by stage keeps them in their original
relative order. -/
theorem c7_sortedData_stable_multikey_witness :
    List.Sublist [mockDeal1, mockDeal3]
      (sortedData [{ column := ColKey.stage, direction := Direction.asc }]
        mockData) :=
  c7_sortedData_stable_multikey.2.2.2.2
    [{ column := ColKey.stage, direction := Direction.asc }]
    mockData mockDeal1 mockDeal3 (by decide) (by decide)

/-- The aggregate `totals` memo.  The averages and the conversion rate are
exact rationals here; JavaScript computes the same expressions in floating
point. -/
structure Totals where
  visible : Nat
  total : Nat
  selected : Nat
  dealValueSum : Int
  forecastValueSum : Int
  averageDealValue : ℚ
  conversionRate : ℚ
deriving DecidableEq, Repr

/-- Lookup `stageBreakdown[stage]` over the visible rows, an absent key
read as 0: the reduce `acc[deal.stage] = (acc[deal.stage] || 0) + 1` counts
the rows of each stage. -/
def stageBreakdown (rows : List Deal) (stage : String) : Nat :=
  (rows.filter fun deal => deal.stage == stage).length

/-- Lookup `ownerBreakdown[owner]` over the visible rows, an absent key
read as 0. -/
def ownerBreakdown (rows : List Deal) (owner : String) : Nat :=
  (rows.filter fun deal => deal.owner == owner).length

/-- The `totals` memo over the post-filter-and-sort rows, the full table and
the selection map. -/
def totals (tableData : List Deal) (rowSelection : List (String × Bool))
    (sorted : List Deal) : Totals :=
  let visible := sorted.length
  let dealValueSum := (sorted.map Deal.dealValue).sum
  { visible := visible,
    total := tableData.length,
    selected := selectedCount rowSelection,
    dealValueSum := dealValueSum,
    forecastValueSum := (sorted.map Deal.forecastValue).sum,
    averageDealValue :=
      if visible > 0 then (dealValueSum : ℚ) / (visible : ℚ) else 0,
    conversionRate :=
      if stageBreakdown sorted "Closed Won" ≠ 0 then
        (stageBreakdown sorted "Closed Won" : ℚ) / (visible : ℚ) * 100
      else 0 }

/-- C8: the average monetary value is the sum of visible deal values over
the visible count (0 when nothing is visible), and the conversion rate is
(visible "Closed Won" count / visible count) × 100 (0 when nothing is
visible); on the seed data 1 "Closed Won" out of 5 visible gives 20. -/
theorem c8_totals_average_conversion :
    (∀ (tableData sorted : List Deal) (sel : List (String × Bool)),
      (totals tableData sel sorted).averageDealValue
        = if sorted.length = 0 then 0
          else ((sorted.map Deal.dealValue).sum : ℚ) / (sorted.length : ℚ)) ∧
    (∀ (tableData sorted : List Deal) (sel : List (String × Bool)),
      (totals tableData sel sorted).conversionRate
        = if sorted.length = 0 then 0
          else (stageBreakdown sorted "Closed Won" : ℚ)
            / (sorted.length : ℚ) * 100) ∧
    (totals mockData [] (sortedData []
      (filteredData mockData defaultUIState.filters))).conversionRate
        = 20 := by
  refine ⟨?_, ?_, ?_⟩
  · intro tableData sorted sel
    simp only [totals]
    rcases Nat.eq_zero_or_pos sorted.length with h | h
    · simp [h]
    · rw [if_pos h, if_neg (by omega)]
  · intro tableData sorted sel
    simp only [totals]
    by_cases hcw : stageBreakdown sorted "Closed Won" = 0
    · rw [if_neg (not_not_intro hcw)]
      rcases Nat.eq_zero_or_pos sorted.length with h | h
      · rw [if_pos h]
      · rw [if_neg (Nat.pos_iff_ne_zero.mp h), hcw]
        norm_num
    · rw [if_pos hcw]
      have hne : sorted.length ≠ 0 := by
        intro h0
        exact hcw (by rw [List.length_eq_zero.mp h0]; rfl)
      rw [if_neg hne]
  · have h1 : sortedData [] (filteredData mockData defaultUIState.filters)
        = mockData := by decide
    rw [h1]
    have hcw : stageBreakdown mockData "Closed Won" = 1 := by decide
    have hlen : mockData.length = 5 := by decide
    simp only [totals, hcw, hlen]
    norm_num

/-- A JSON value: the possible results of the platform JSON parser. -/
inductive Json
  | null
  | bool (b : Bool)
  | num (n : Int)
  | str (s : String)
  | arr (elems : List Json)
  | obj (fields : List (String × Json))

/-- The `uiState` initializer (the `useState` callback): read the persisted
blob; a missing value, an empty string (falsy), or a value the parser
rejects (`JSON.parse` throws and the `try`/`catch` falls through) yields the
default state; a blob the parser accepts is returned as-is, with no shape
validation.  The platform parser is passed in as `parse`; `Sum.inl` is the
unvalidated parsed value, `Sum.inr` the default state. -/
def loadUIState (parse : String → Option Json) (stored : Option String) :
    Json ⊕ UIState :=
  match stored with
  | some s =>
    if s ≠ "" then
      match parse s with
      | some j => Sum.inl j
      | none => Sum.inr defaultUIState
    else Sum.inr defaultUIState
  | none => Sum.inr defaultUIState

/-- A stand-in for the platform `JSON.parse`, pinned on the one input the
counterexample uses: the text "42" is valid JSON and parses to the number
42, a value that does not match the View State aggregate shape. -/
def jsonParseNum : String → Option Json :=
  fun s => if s = "42" then some (Json.num 42) else none

/-- C9 fails as stated on the shape-mismatch branch: the persisted blob
"42" parses successfully, and the initializer returns the raw number 42
rather than falling back to the default view state — the code performs no
shape validation on a successfully parsed blob. -/
theorem c9_counterexample :
    loadUIState jsonParseNum (some "42") = Sum.inl (Json.num 42) ∧
    loadUIState jsonParseNum (some "42") ≠ Sum.inr defaultUIState := by
  refine ⟨rfl, ?_⟩
  intro h
  rw [show loadUIState jsonParseNum (some "42") = Sum.inl (Json.num 42)
    from rfl] at h
  exact Sum.noConfusion h

/-- C9 amended: the startup load itself never throws — an absent blob, an
empty blob, or a blob the parser rejects (corrupted text) falls back to the
documented default view state (no sorts, no filters, value range 0–200000);
but a blob that parses successfully is returned without shape validation,
whatever its shape, instead of being replaced by the defaults. -/
theorem c9_load_fallback (parse : String → Option Json)
    (stored : Option String) :
    (stored = none → loadUIState parse stored = Sum.inr defaultUIState) ∧
    (∀ s, stored = some s → parse s = none →
      loadUIState parse stored = Sum.inr defaultUIState) ∧
    (∀ s j, stored = some s → s ≠ "" → parse s = some j →
      loadUIState parse stored = Sum.inl j) ∧
    defaultUIState.sorts = [] ∧
    defaultUIState.filters
      = { search := "", stage := [], owner := [],
          dealValueRange := (0, 200000) } := by
  refine ⟨?_, ?_, ?_, rfl, rfl⟩
  · rintro rfl
    rfl
  · rintro s rfl hp
    by_cases he : s = ""
    · subst he
      rfl
    · simp [loadUIState, he, hp]
  · rintro s j rfl hne hp
    simp [loadUIState, hne, hp]

/-- Witness for the amended C9: with nothing persisted, the initializer
returns the default view state. -/
theorem c9_load_fallback_witness :
    loadUIState jsonParseNum none = Sum.inr defaultUIState :=
  (c9_load_fallback jsonParseNum none).1 rfl
